import Mathlib

/-!
Verification of `src/common/src/runtime-track.ts` (flyXC).

JavaScript numbers are modelled as rationals (`ℚ`); `Math.round` is
Mathlib's `round` (round half towards +∞, matching JS), and
`x.toFixed(1)` on a rational is `round (10 * x) / 10`.
Strings are modelled as `List Char`.
The great-circle distance `getDistance` (geolib) is an external
collaborator; it is kept as an opaque parameter `dist`.
-/

namespace RT

/-- Geographic sample, as in the source's `LatLon`. -/
structure LatLon where
  lat : ℚ
  lon : ℚ
deriving Repr, DecidableEq

/-- Decoded/encoded track proto (`protos.Track`): parallel arrays plus pilot name. -/
structure Track where
  pilot : List Char
  lat : List ℚ
  lon : List ℚ
  alt : List ℚ
  timeSec : List ℚ
deriving Repr, DecidableEq

/-- Ground-altitude overlay proto (`protos.GroundAltitude`).
`altitudes = none` models a value that fails the source's `Array.isArray` check. -/
structure GroundAltitude where
  altitudes : Option (List ℚ)
deriving Repr, DecidableEq

/-- Airspaces overlay proto (`protos.Airspaces`): the two differentially encoded
time arrays; the remaining descriptive fields are passed through unchanged by the
code and are bundled as `static` data irrelevant to the claims. -/
structure Airspaces where
  startSec : List ℚ
  endSec : List ℚ
deriving Repr, DecidableEq

/-- Modelled from the spec: `diffEncodeArray` lives in `./math`, which is not part
of the given sources.  Spec §4.1: element 0 is `round?(values[0] * scale)`; element
`i>0` is the same transform applied to `values[i] - values[i-1]` (delta of the
unscaled values, then scaled and optionally rounded).  Auxiliary recursion carrying
the previous unscaled value. -/
def diffEncodeAux (scale : ℚ) (rnd : Bool) (prev : ℚ) : List ℚ → List ℚ
  | [] => []
  | v :: rest =>
    (if rnd then ((round ((v - prev) * scale) : ℤ) : ℚ) else (v - prev) * scale) ::
      diffEncodeAux scale rnd v rest

/-- Modelled from the spec: `encode(values, scale = 1, round = true)`.
With `prev = 0` the head is `round?(values[0] * scale)` as §4.1 states. -/
def diffEncodeArray (values : List ℚ) (scale : ℚ) (rnd : Bool) : List ℚ :=
  diffEncodeAux scale rnd 0 values

/-- Modelled from the spec: auxiliary of `decode`, producing the running sums of
the stored deltas. -/
def diffDecodeAux (acc : ℚ) : List ℚ → List ℚ
  | [] => []
  | v :: rest => (acc + v) :: diffDecodeAux (acc + v) rest

/-- Modelled from the spec: `decode(values, scale = 1)` reconstructs the running
sum of the stored deltas, then divides by `scale` (spec §4.1). -/
def diffDecodeArray (values : List ℚ) (scale : ℚ) : List ℚ :=
  (diffDecodeAux 0 values).map (· / scale)

/-- `diffEncodeTrack`: lat/lon at scale 1e5 (rounded), alt at scale 1 (rounded),
timeSec at scale 1 unrounded. -/
def diffEncodeTrack (track : Track) : Track :=
  { track with
    lon := diffEncodeArray track.lon 100000 true
    lat := diffEncodeArray track.lat 100000 true
    timeSec := diffEncodeArray track.timeSec 1 false
    alt := diffEncodeArray track.alt 1 true }

/-- `diffDecodeTrack`: inverse scales. -/
def diffDecodeTrack (track : Track) : Track :=
  { track with
    lon := diffDecodeArray track.lon 100000
    lat := diffDecodeArray track.lat 100000
    timeSec := diffDecodeArray track.timeSec 1
    alt := diffDecodeArray track.alt 1 }

/-- `diffEncodeAirspaces`: both time arrays encoded at scale 1, rounded. -/
def diffEncodeAirspaces (asp : Airspaces) : Airspaces :=
  { asp with
    startSec := diffEncodeArray asp.startSec 1 true
    endSec := diffEncodeArray asp.endSec 1 true }

/-- `diffDecodeAirspaces`. -/
def diffDecodeAirspaces (asp : Airspaces) : Airspaces :=
  { asp with
    startSec := diffDecodeArray asp.startSec 1
    endSec := diffDecodeArray asp.endSec 1 }

/-- The assembled output record (`RuntimeTrack`), field for field as in the source.
`listMax`/`listMin` below stand for the spreads `Math.max(...a)` / `Math.min(...a)`. -/
structure RuntimeTrack where
  id : List Char
  isPostProcessed : Bool
  name : List Char
  lat : List ℚ
  lon : List ℚ
  lookAtLat : List ℚ
  lookAtLon : List ℚ
  alt : List ℚ
  gndAlt : List ℚ
  vx : List ℚ
  vz : List ℚ
  timeSec : List ℚ
  heading : List ℚ
  maxAlt : ℚ
  minAlt : ℚ
  maxTimeSec : ℚ
  minTimeSec : ℚ
  maxLat : ℚ
  minLat : ℚ
  maxLon : ℚ
  minLon : ℚ
  maxVx : ℚ
  minVx : ℚ
  maxVz : ℚ
  minVz : ℚ
  maxDistance : ℚ
  airspaces : Option Airspaces
deriving Repr, DecidableEq

/-- `Math.max(...l)` for the non-empty arrays this code spreads (the empty case,
`-Infinity` in JS, is not representable in `ℚ` and is mapped to 0; every claim
about extrema is stated for non-empty tracks). -/
def listMax : List ℚ → ℚ
  | [] => 0
  | x :: xs => xs.foldl max x

/-- `Math.min(...l)`, same conventions as `listMax`. -/
def listMin : List ℚ → ℚ
  | [] => 0
  | x :: xs => xs.foldl min x

/-- `createTrackId`: the template literal of the source over decimal digits. -/
def digitChar (d : ℕ) : Char :=
  match d with
  | 0 => '0' | 1 => '1' | 2 => '2' | 3 => '3' | 4 => '4'
  | 5 => '5' | 6 => '6' | 7 => '7' | 8 => '8' | _ => '9'

/-- Decimal digit string of a natural number, most significant digit first
(the JS `${n}` rendering of a non-negative integer). -/
def digitsOfNat (n : ℕ) : List Char :=
  if n = 0 then ['0'] else ((Nat.digits 10 n).reverse).map digitChar

/-- Numeric value of a digit character (used to model JS `Number` on the digit
run captured by the regex). -/
def digitVal (c : Char) : ℕ := c.toNat - 48

/-- Value of a most-significant-first digit string. -/
def valOfDigits (cs : List Char) : ℕ := cs.foldl (fun a c => 10 * a + digitVal c) 0

/-- `createTrackId(groupId, groupIndex)`: the decimal rendering of the group id,
a dash, then the decimal rendering of the group index. -/
def createTrackId (groupId : ℕ) (groupIndex : ℕ) : List Char :=
  digitsOfNat groupId ++ '-' :: digitsOfNat groupIndex

/-- `extractGroupId`: match the regex anchored at the start that captures a digit
run followed by a dash, i.e. the maximal leading digit run must be
non-empty and be followed by `-`; on a match return the run's numeric value,
otherwise `-1`. -/
def extractGroupId (trackId : List Char) : ℤ :=
  let ds := trackId.takeWhile Char.isDigit
  if ds ≠ [] ∧ (trackId.dropWhile Char.isDigit).head? = some '-' then
    (valOfDigits ds : ℤ)
  else -1

/-- Per-step deltas, as pre-computed in the source: index 0 holds 0, index
`i ∈ [1, n)` holds `vals[i] - vals[i-1]`.  Covers `deltaSeconds`/`deltaSec` and
`distZ`. -/
def stepDeltas (vals : List ℚ) (n : ℕ) : List ℚ :=
  0 :: (List.range' 1 (n - 1)).map (fun i => vals.getD i 0 - vals.getD (i - 1) 0)

/-- The pre-computed `distX` array: index 0 holds 0, index `i ∈ [1, n)` holds the
(opaque) distance between fix `i-1` and fix `i`. -/
def distXList (dist : LatLon → LatLon → ℚ) (track : Track) : List ℚ :=
  0 :: (List.range' 1 (track.lat.length - 1)).map (fun i =>
    dist ⟨track.lat.getD (i - 1) 0, track.lon.getD (i - 1) 0⟩
         ⟨track.lat.getD i 0, track.lon.getD i 0⟩)

/-- The inner accumulation loop shared by the two speed computations:
`for (let avg = 1; i + avg < n && avg < cap; avg++) { d += dx; t += dt; if (t > lim) break; }`. -/
def accumGo (dx dt lim : ℚ) (n cap i : ℕ) (avg : ℕ) (d t : ℚ) : ℚ × ℚ :=
  if h : i + avg < n ∧ avg < cap then
    let d' := d + dx
    let t' := t + dt
    if lim < t' then (d', t') else accumGo dx dt lim n cap i (avg + 1) d' t'
  else (d, t)
termination_by cap - avg
decreasing_by omega

/-- The `vx` loop of `protoToRuntimeTrack`: window cap 65, time limit 60 s,
`vx[i] = round(3.6 * distance / timeSec)` when the accumulated time is positive,
else 0. -/
def vxList (dist : LatLon → LatLon → ℚ) (track : Track) : List ℚ :=
  let n := track.lat.length
  let dX := distXList dist track
  let dS := stepDeltas track.timeSec n
  (List.range n).map (fun i =>
    let p := accumGo (dX.getD i 0) (dS.getD i 0) 60 n 65 i 1 0 0
    if 0 < p.2 then ((round (18 / 5 * p.1 / p.2) : ℤ) : ℚ) else 0)

/-- `computeVerticalSpeed`: window cap 35, time limit 30 s,
`vz[i] = Number((distance / timeSec).toFixed(1))` when the accumulated time is
positive, else 0. -/
def computeVerticalSpeed (alt timeSec : List ℚ) : List ℚ :=
  let n := alt.length
  let dZ := stepDeltas alt n
  let dS := stepDeltas timeSec n
  (List.range n).map (fun i =>
    let p := accumGo (dZ.getD i 0) (dS.getD i 0) 30 n 35 i 1 0 0
    if 0 < p.2 then ((round (10 * (p.1 / p.2)) : ℤ) : ℚ) / 10 else 0)

/-- `protoToRuntimeTrack`: decode the differential track, derive `vx`/`vz`,
fill placeholders and compute extrema. -/
def protoToRuntimeTrack (dist : LatLon → LatLon → ℚ) (id : List Char)
    (differentialTrack : Track) (isPostProcessed : Bool) : RuntimeTrack :=
  let track := diffDecodeTrack differentialTrack
  let trackLen := track.lat.length
  let vx := vxList dist track
  let vz := computeVerticalSpeed track.alt track.timeSec
  { id := id
    name := track.pilot
    lat := track.lat
    lon := track.lon
    lookAtLat := track.lat
    lookAtLon := track.lon
    alt := track.alt
    gndAlt := List.replicate trackLen 0
    timeSec := track.timeSec
    vx := vx
    vz := vz
    heading := List.replicate trackLen 0
    maxAlt := listMax track.alt
    minAlt := listMin track.alt
    maxLat := listMax track.lat
    minLat := listMin track.lat
    maxLon := listMax track.lon
    minLon := listMin track.lon
    maxTimeSec := listMax track.timeSec
    minTimeSec := listMin track.timeSec
    maxVz := listMax vz
    minVz := listMin vz
    maxVx := listMax vx
    minVx := listMin vx
    maxDistance := listMax (distXList dist track)
    isPostProcessed := isPostProcessed
    airspaces := none }

/-- `addGroundAltitude`: overwrite `gndAlt` only when `altitudes` is an array of
the track's length; otherwise leave the track untouched. -/
def addGroundAltitude (track : RuntimeTrack) (gndAlt : GroundAltitude) : RuntimeTrack :=
  match gndAlt.altitudes with
  | some alts =>
    if alts.length = track.lat.length then { track with gndAlt := diffDecodeArray alts 1 }
    else track
  | none => track

/-- `addAirspaces`: unconditionally attach the decoded airspaces. -/
def addAirspaces (track : RuntimeTrack) (airspaces : Airspaces) : RuntimeTrack :=
  { track with airspaces := some (diffDecodeAirspaces airspaces) }

/-- One deserialized `MetaTrackGroup`: the three optional containers, already
taken past the external `fromBinary` boundary (spec §6: this core receives the
decoded arrays, not the bytes). -/
structure MetaTrackGroup where
  id : ℕ
  numPostprocess : ℕ
  trackGroupBin : Option (List Track)
  groundAltitudeGroupBin : Option (List GroundAltitude)
  airspacesGroupBin : Option (List Airspaces)

/-- The `trackGroup.tracks.forEach((protoTrack, i) => rtTracks.push(...))` loop,
with the running index made explicit. -/
def buildRtTracks (dist : LatLon → LatLon → ℚ) (gid : ℕ) (npost : Bool) :
    List Track → ℕ → List RuntimeTrack
  | [], _ => []
  | t :: rest, i =>
    protoToRuntimeTrack dist (createTrackId gid i) t npost :: buildRtTracks dist gid npost rest (i + 1)

/-- The ground-altitude overlay loop `altGroup.groundAltitudes.forEach((gndAlt, i) =>
addGroundAltitude(rtTracks[i], gndAlt))`.  Indexing past the end yields
`undefined` in JS; `addGroundAltitude` then dereferences `track.lat` — but only
after `Array.isArray(altitudes)` has passed, hence the short-circuit case for
`altitudes = none`.  A thrown `TypeError` is modelled as `none`. -/
def mergeGroundAll (tracks : List RuntimeTrack) :
    List GroundAltitude → ℕ → Option (List RuntimeTrack)
  | [], _ => some tracks
  | g :: rest, i =>
    match g.altitudes with
    | none => mergeGroundAll tracks rest (i + 1)
    | some _ =>
      if h : i < tracks.length then
        mergeGroundAll (tracks.set i (addGroundAltitude (tracks.get ⟨i, h⟩) g)) rest (i + 1)
      else none

/-- The airspaces overlay loop; `addAirspaces` writes to `track.airspaces`
unconditionally, so an out-of-range index always throws (`none`). -/
def mergeAirspacesAll (tracks : List RuntimeTrack) :
    List Airspaces → ℕ → Option (List RuntimeTrack)
  | [], _ => some tracks
  | a :: rest, i =>
    if h : i < tracks.length then
      mergeAirspacesAll (tracks.set i (addAirspaces (tracks.get ⟨i, h⟩) a)) rest (i + 1)
    else none

/-- The `rtTracks` array of one `metaGroup`: one runtime track per decoded
trajectory, empty when the trajectory container is absent. -/
def groupTracks (dist : LatLon → LatLon → ℚ) (g : MetaTrackGroup) : List RuntimeTrack :=
  match g.trackGroupBin with
  | none => []
  | some ts => buildRtTracks dist g.id (decide (0 < g.numPostprocess)) ts 0

/-- Processing of one `metaGroup` inside `createRuntimeTracks`: build the runtime
tracks (an absent trajectory container contributes none), then merge the two
optional overlays positionally. -/
def processGroup (dist : LatLon → LatLon → ℚ) (g : MetaTrackGroup) :
    Option (List RuntimeTrack) :=
  match (match g.groundAltitudeGroupBin with
         | none => some (groupTracks dist g)
         | some gs => mergeGroundAll (groupTracks dist g) gs 0) with
  | none => none
  | some tracks =>
    match g.airspacesGroupBin with
    | none => some tracks
    | some asps => mergeAirspacesAll tracks asps 0

/-- Spec-side (claim C9): the identity data each group is expected to
contribute, in order: for the `i`-th decoded trajectory the id
`createTrackId groupId i` and the post-processed flag `numPostprocess > 0`. -/
def specGroupKeys (g : MetaTrackGroup) : List (List Char × Bool) :=
  match g.trackGroupBin with
  | none => []
  | some ts => (List.range ts.length).map
      (fun i => (createTrackId g.id i, decide (0 < g.numPostprocess)))

/-- `createRuntimeTracks`, past the external deserialization boundary: process
the groups in order and concatenate; an exception in any group aborts the whole
call (`none`). -/
def createRuntimeTracks (dist : LatLon → LatLon → ℚ) :
    List MetaTrackGroup → Option (List RuntimeTrack)
  | [] => some []
  | g :: rest =>
    match processGroup dist g with
    | none => none
    | some ts =>
      match createRuntimeTracks dist rest with
      | none => none
      | some more => some (ts ++ more)

/-- Spec-side description of the accumulation windows (claims C1/C2): `avg` ranges
from 1 while `i + avg < n` and `avg < cap`, each iteration adding the same `dx`
and `dt`, and the loop breaks once the accumulated time exceeds `lim`.  Hence the
totals are `steps * dx` and `steps * dt` where `steps` is: all `m` available
iterations (`m = min (n - i) cap - 1`), cut down — when `dt` is positive — to the
first count whose accumulated time exceeds `lim`, namely `⌊lim / dt⌋ + 1`. -/
def specWindowSteps (dt lim : ℚ) (m : ℕ) : ℕ :=
  if 0 < dt then min m (⌊lim / dt⌋ + 1).toNat else m

/-- Spec-side (claims C1/C2/C6): the per-step time delta the claims describe,
`deltaSec[i] = timeSec[i] - timeSec[i-1]`, 0 at index 0.  Also used for
`distZ[i] = alt[i] - alt[i-1]`. -/
def specStepDelta (vals : List ℚ) (i : ℕ) : ℚ :=
  if i = 0 then 0 else vals.getD i 0 - vals.getD (i - 1) 0

/-- Spec-side (claim C1): the step distance the claim describes, `distX[i]` =
distance between fix `i-1` and fix `i`, 0 at index 0. -/
def specStepDist (dist : LatLon → LatLon → ℚ) (track : Track) (i : ℕ) : ℚ :=
  if i = 0 then 0 else
    dist ⟨track.lat.getD (i - 1) 0, track.lon.getD (i - 1) 0⟩
         ⟨track.lat.getD i 0, track.lon.getD i 0⟩

/-- Spec-side (claim C1): the accumulated distance `D` of the claimed `vx` window:
the same `distX[i]` added once per iteration, `avg` ranging from 1 while
`i + avg < N` and `avg < 65`, breaking once the accumulated time exceeds 60 s. -/
def specVxD (dist : LatLon → LatLon → ℚ) (track : Track) (i : ℕ) : ℚ :=
  (specWindowSteps (specStepDelta track.timeSec i) 60 (min (track.lat.length - i) 65 - 1) : ℚ) *
    specStepDist dist track i

/-- Spec-side (claim C1): the accumulated time `T` of the claimed `vx` window. -/
def specVxT (track : Track) (i : ℕ) : ℚ :=
  (specWindowSteps (specStepDelta track.timeSec i) 60 (min (track.lat.length - i) 65 - 1) : ℚ) *
    specStepDelta track.timeSec i

/-- Spec-side (claim C2): the accumulated altitude difference of the claimed `vz`
window (cap 35, limit 30 s), accumulating the same `distZ[i]` each iteration. -/
def specVzD (alt timeSec : List ℚ) (i : ℕ) : ℚ :=
  (specWindowSteps (specStepDelta timeSec i) 30 (min (alt.length - i) 35 - 1) : ℚ) *
    specStepDelta alt i

/-- Spec-side (claim C2): the accumulated time of the claimed `vz` window. -/
def specVzT (alt timeSec : List ℚ) (i : ℕ) : ℚ :=
  (specWindowSteps (specStepDelta timeSec i) 30 (min (alt.length - i) 35 - 1) : ℚ) *
    specStepDelta timeSec i

/-- Concrete track used by witnesses: differential form; decoded it has
`lat = [0,0,0,0]`, `lon = [0,1,2,3]`, `alt = [0,0,0,0]`, `timeSec = [0,10,20,30]`. -/
def trExC1 : Track :=
  { pilot := [], lat := [0, 0, 0, 0], lon := [0, 100000, 100000, 100000]
    alt := [0, 0, 0, 0], timeSec := [0, 10, 10, 10] }

/-- Concrete track used by the C6 witness: decoded `timeSec = [5,5,5]` (stalled
clock). -/
def trExC6 : Track :=
  { pilot := [], lat := [0, 0, 0], lon := [0, 0, 0]
    alt := [0, 0, 0], timeSec := [5, 0, 0] }

/-- Concrete track exhibiting accumulated quantization drift in the rounded
lat codec: three samples 0.4, 0.8 and 1.2 hundred-thousandths of a degree apart
from zero. -/
def cexTrack : Track :=
  { pilot := [], lat := [4 / 1000000, 8 / 1000000, 12 / 1000000]
    lon := [0, 0, 0], alt := [0, 0, 0], timeSec := [0, 0, 0] }

/-- Witness group: one trajectory, post-processed, no overlays. -/
def gExA : MetaTrackGroup :=
  { id := 7, numPostprocess := 1, trackGroupBin := some [trExC6]
    groundAltitudeGroupBin := none, airspacesGroupBin := none }

/-- Witness group: absent trajectory container, no overlays. -/
def gExB : MetaTrackGroup :=
  { id := 8, numPostprocess := 0, trackGroupBin := none
    groundAltitudeGroupBin := none, airspacesGroupBin := none }

/-- Witness group for C10: absent trajectory container but one airspaces overlay
entry. -/
def gExBad : MetaTrackGroup :=
  { id := 9, numPostprocess := 0, trackGroupBin := none
    groundAltitudeGroupBin := none, airspacesGroupBin := some [⟨[], []⟩] }

/-- Number of runtime tracks a group decodes to (0 when the trajectory container
is absent). -/
def trackCount (g : MetaTrackGroup) : ℕ :=
  match g.trackGroupBin with
  | none => 0
  | some ts => ts.length

/-- Identity-level projection of a runtime track: the fields of claim C9 that the
overlay merges never touch. -/
def trackKey (t : RuntimeTrack) : List Char × Bool := (t.id, t.isPostProcessed)

end RT

namespace RT

theorem accumGo_spec (dx dt lim : ℚ) (hlim : 0 ≤ lim) (n cap i j : ℕ)
    (hj : j ≤ min (n - i) cap - 1) (hstop : ¬ lim < (j : ℚ) * dt) :
    accumGo dx dt lim n cap i (j + 1) ((j : ℚ) * dx) ((j : ℚ) * dt)
      = ((specWindowSteps dt lim (min (n - i) cap - 1) : ℚ) * dx,
         (specWindowSteps dt lim (min (n - i) cap - 1) : ℚ) * dt) := by
  rw [accumGo]
  by_cases hg : i + (j + 1) < n ∧ j + 1 < cap
  · rw [dif_pos hg]
    simp only
    by_cases hbr : lim < (j : ℚ) * dt + dt
    · rw [if_pos hbr]
      have hdt : 0 < dt := by linarith [not_lt.mp hstop]
      have hfloor : ⌊lim / dt⌋ = (j : ℤ) := by
        rw [Int.floor_eq_iff]
        constructor
        · rw [le_div_iff₀ hdt]; push_cast; linarith [not_lt.mp hstop]
        · rw [div_lt_iff₀ hdt]; push_cast; linarith
      have hK : specWindowSteps dt lim (min (n - i) cap - 1) = j + 1 := by
        unfold specWindowSteps
        rw [if_pos hdt, hfloor]
        omega
      rw [hK, Prod.mk.injEq]
      constructor <;> · push_cast; ring
    · rw [if_neg hbr]
      have h1 : (j : ℚ) * dx + dx = ((j + 1 : ℕ) : ℚ) * dx := by push_cast; ring
      have h2 : (j : ℚ) * dt + dt = ((j + 1 : ℕ) : ℚ) * dt := by push_cast; ring
      rw [h1, h2]
      exact accumGo_spec dx dt lim hlim n cap i (j + 1) (by omega)
        (by push_cast; intro hc; exact hbr (by linarith))
  · rw [dif_neg hg]
    have hK : specWindowSteps dt lim (min (n - i) cap - 1) = j := by
      unfold specWindowSteps
      split
      · rename_i hdt
        have hjle : (j : ℤ) ≤ ⌊lim / dt⌋ := by
          rw [Int.le_floor, le_div_iff₀ hdt]
          push_cast
          linarith [not_lt.mp hstop]
        omega
      · omega
    rw [hK]
termination_by cap - j

theorem getD_map_range {n i : ℕ} (hi : i < n) {f : ℕ → ℚ} :
    ((List.range n).map f).getD i 0 = f i := by
  rw [List.getD_eq_getElem]
  rw [List.getElem_map, List.getElem_range]
  simpa using hi

theorem getD_stepDeltas (vals : List ℚ) (n i : ℕ) (hi : i < n) :
    (stepDeltas vals n).getD i 0 =
      if i = 0 then 0 else vals.getD i 0 - vals.getD (i - 1) 0 := by
  cases i with
  | zero => simp [stepDeltas]
  | succ j =>
    have hj : j < ((List.range' 1 (n - 1)).map
        (fun i => vals.getD i 0 - vals.getD (i - 1) 0)).length := by
      simp; omega
    simp only [stepDeltas, List.getD_cons_succ]
    rw [List.getD_eq_getElem _ _ hj]
    simp only [List.getElem_map, List.getElem_range'_1]
    have h1 : 1 + j = j + 1 := by omega
    rw [h1]
    simp

theorem getD_distXList (dist : LatLon → LatLon → ℚ) (track : Track) (i : ℕ)
    (hi : i < track.lat.length) :
    (distXList dist track).getD i 0 =
      if i = 0 then 0 else
        dist ⟨track.lat.getD (i - 1) 0, track.lon.getD (i - 1) 0⟩
             ⟨track.lat.getD i 0, track.lon.getD i 0⟩ := by
  cases i with
  | zero => simp [distXList]
  | succ j =>
    have hj : j < ((List.range' 1 (track.lat.length - 1)).map (fun i =>
        dist ⟨track.lat.getD (i - 1) 0, track.lon.getD (i - 1) 0⟩
             ⟨track.lat.getD i 0, track.lon.getD i 0⟩)).length := by
      simp; omega
    simp only [distXList, List.getD_cons_succ]
    rw [List.getD_eq_getElem _ _ hj]
    simp only [List.getElem_map, List.getElem_range'_1]
    have h1 : 1 + j = j + 1 := by omega
    rw [h1]
    simp

theorem vxList_eq (dist : LatLon → LatLon → ℚ) (track : Track) (i : ℕ)
    (hi : i < track.lat.length) :
    (vxList dist track).getD i 0 =
      (fun dx dt =>
        (fun K =>
          if 0 < (K : ℚ) * dt then
            ((round (18 / 5 * ((K : ℚ) * dx) / ((K : ℚ) * dt)) : ℤ) : ℚ)
          else 0)
        (specWindowSteps dt 60 (min (track.lat.length - i) 65 - 1)))
      ((distXList dist track).getD i 0)
      ((stepDeltas track.timeSec track.lat.length).getD i 0) := by
  have hstep := accumGo_spec ((distXList dist track).getD i 0)
      ((stepDeltas track.timeSec track.lat.length).getD i 0) 60 (by norm_num)
      track.lat.length 65 i 0 (by omega) (by norm_num)
  simp only [Nat.cast_zero, zero_mul, zero_add] at hstep
  unfold vxList
  simp only [getD_map_range hi, hstep]

theorem computeVerticalSpeed_length (alt timeSec : List ℚ) :
    (computeVerticalSpeed alt timeSec).length = alt.length := by
  simp [computeVerticalSpeed]

theorem computeVerticalSpeed_eq (alt timeSec : List ℚ) (i : ℕ) (hi : i < alt.length) :
    (computeVerticalSpeed alt timeSec).getD i 0 =
      (fun dz dt =>
        (fun K =>
          if 0 < (K : ℚ) * dt then
            ((round (10 * ((K : ℚ) * dz / ((K : ℚ) * dt))) : ℤ) : ℚ) / 10
          else 0)
        (specWindowSteps dt 30 (min (alt.length - i) 35 - 1)))
      ((stepDeltas alt alt.length).getD i 0)
      ((stepDeltas timeSec alt.length).getD i 0) := by
  have hstep := accumGo_spec ((stepDeltas alt alt.length).getD i 0)
      ((stepDeltas timeSec alt.length).getD i 0) 30 (by norm_num)
      alt.length 35 i 0 (by omega) (by norm_num)
  simp only [Nat.cast_zero, zero_mul, zero_add] at hstep
  unfold computeVerticalSpeed
  simp only [getD_map_range hi, hstep]

theorem proto_vx_eq (dist : LatLon → LatLon → ℚ) (idStr : List Char) (tr : Track)
    (post : Bool) :
    (protoToRuntimeTrack dist idStr tr post).vx = vxList dist (diffDecodeTrack tr) := rfl

theorem proto_vz_eq (dist : LatLon → LatLon → ℚ) (idStr : List Char) (tr : Track)
    (post : Bool) :
    (protoToRuntimeTrack dist idStr tr post).vz =
      computeVerticalSpeed (diffDecodeTrack tr).alt (diffDecodeTrack tr).timeSec := rfl

/-- C1: for every decoded trajectory and every index `i` below its length, the
horizontal speed of `protoToRuntimeTrack` is `round(3.6 * D / T)` when `T > 0`
and `0` otherwise, where `D`/`T` are the claim's accumulations: the same
precomputed `distX[i]` (0 at `i = 0`) and `deltaSec[i]` added once per iteration,
`avg` ranging from 1 while `i + avg < N` and `avg < 65`, breaking once the
accumulated time exceeds 60 s (`specVxD`/`specVxT` are this accumulation in
closed form). -/
theorem claim_C1_vx_window (dist : LatLon → LatLon → ℚ) (idStr : List Char)
    (tr : Track) (post : Bool) (i : ℕ)
    (hi : i < (diffDecodeTrack tr).lat.length) :
    (protoToRuntimeTrack dist idStr tr post).vx.getD i 0 =
      if 0 < specVxT (diffDecodeTrack tr) i then
        ((round (18 / 5 * specVxD dist (diffDecodeTrack tr) i /
            specVxT (diffDecodeTrack tr) i) : ℤ) : ℚ)
      else 0 := by
  rw [proto_vx_eq, vxList_eq dist (diffDecodeTrack tr) i hi]
  simp only [specVxD, specVxT, specStepDelta, specStepDist,
    getD_distXList dist (diffDecodeTrack tr) i hi,
    getD_stepDeltas (diffDecodeTrack tr).timeSec (diffDecodeTrack tr).lat.length i hi]

/-- C1 witness: at the concrete track `trExC1` (decoded times `[0,10,20,30]`),
constant distance 100, index 1. -/
theorem claim_C1_witness :
    1 < (diffDecodeTrack trExC1).lat.length ∧
    (protoToRuntimeTrack (fun _ _ => 100) [] trExC1 false).vx.getD 1 0 =
      (if 0 < specVxT (diffDecodeTrack trExC1) 1 then
        ((round (18 / 5 * specVxD (fun _ _ => 100) (diffDecodeTrack trExC1) 1 /
            specVxT (diffDecodeTrack trExC1) 1) : ℤ) : ℚ)
      else 0) :=
  ⟨by decide, claim_C1_vx_window (fun _ _ => 100) [] trExC1 false 1 (by decide)⟩

/-- C2: `computeVerticalSpeed` has output length `N = alt.length` and, at each
`i < N`, returns the accumulated `distZ[i]` divided by the accumulated
`deltaSec[i]`, rounded to one decimal place, when the accumulated time is
positive, else 0 — window cap 35, early stop past 30 s, meters/second with no
unit conversion (`specVzD`/`specVzT` are the claim's accumulation in closed
form). -/
theorem claim_C2_vz (alt timeSec : List ℚ) (hlen : timeSec.length = alt.length)
    (i : ℕ) (hi : i < alt.length) :
    (computeVerticalSpeed alt timeSec).length = alt.length ∧
    (computeVerticalSpeed alt timeSec).getD i 0 =
      (if 0 < specVzT alt timeSec i then
        ((round (10 * (specVzD alt timeSec i / specVzT alt timeSec i)) : ℤ) : ℚ) / 10
      else 0) := by
  refine ⟨computeVerticalSpeed_length alt timeSec, ?_⟩
  rw [computeVerticalSpeed_eq alt timeSec i hi]
  simp only [specVzD, specVzT, specStepDelta,
    getD_stepDeltas alt alt.length i hi,
    getD_stepDeltas timeSec alt.length i hi]

/-- C2 witness: `alt = [100,110,105,105]`, `timeSec = [0,10,20,30]`, index 2. -/
theorem claim_C2_witness :
    ([(0 : ℚ), 10, 20, 30].length = [(100 : ℚ), 110, 105, 105].length ∧
      2 < [(100 : ℚ), 110, 105, 105].length) ∧
    ((computeVerticalSpeed [(100 : ℚ), 110, 105, 105] [0, 10, 20, 30]).length =
        [(100 : ℚ), 110, 105, 105].length ∧
      (computeVerticalSpeed [(100 : ℚ), 110, 105, 105] [0, 10, 20, 30]).getD 2 0 =
        (if 0 < specVzT [(100 : ℚ), 110, 105, 105] [0, 10, 20, 30] 2 then
          ((round (10 * (specVzD [(100 : ℚ), 110, 105, 105] [0, 10, 20, 30] 2 /
              specVzT [(100 : ℚ), 110, 105, 105] [0, 10, 20, 30] 2)) : ℤ) : ℚ) / 10
        else 0)) :=
  ⟨⟨by decide, by decide⟩,
    claim_C2_vz [(100 : ℚ), 110, 105, 105] [0, 10, 20, 30] (by decide) 2 (by decide)⟩

/-- C6: when the window's time deltas are not strictly positive — in particular
when consecutive `timeSec` samples are equal, so the accumulated elapsed time is
zero or negative — both `vx[i]` and `vz[i]` are exactly 0 (the `timeSec > 0`
guard takes the 0 branch; no division happens). -/
theorem claim_C6_zero_speed (dist : LatLon → LatLon → ℚ) (idStr : List Char)
    (tr : Track) (post : Bool) (i : ℕ)
    (halt : (diffDecodeTrack tr).alt.length = (diffDecodeTrack tr).lat.length)
    (hi : i < (diffDecodeTrack tr).lat.length)
    (hdt : i = 0 ∨ (diffDecodeTrack tr).timeSec.getD i 0 -
      (diffDecodeTrack tr).timeSec.getD (i - 1) 0 ≤ 0) :
    (protoToRuntimeTrack dist idStr tr post).vx.getD i 0 = 0 ∧
    (protoToRuntimeTrack dist idStr tr post).vz.getD i 0 = 0 := by
  have hi2 : i < (diffDecodeTrack tr).alt.length := by rw [halt]; exact hi
  have hd : (stepDeltas (diffDecodeTrack tr).timeSec (diffDecodeTrack tr).lat.length).getD i 0 ≤ 0 := by
    rw [getD_stepDeltas _ _ i hi]
    rcases hdt with h | h
    · simp [h]
    · rcases Nat.eq_zero_or_pos i with h0 | h0
      · simp [h0]
      · rw [if_neg (by omega)]; exact h
  have hd2 : (stepDeltas (diffDecodeTrack tr).timeSec (diffDecodeTrack tr).alt.length).getD i 0 ≤ 0 := by
    rw [halt]; exact hd
  constructor
  · rw [proto_vx_eq, vxList_eq dist (diffDecodeTrack tr) i hi]
    simp only
    rw [if_neg]
    intro hpos
    have : (0 : ℚ) ≤ (specWindowSteps
        ((stepDeltas (diffDecodeTrack tr).timeSec (diffDecodeTrack tr).lat.length).getD i 0) 60
        ((diffDecodeTrack tr).lat.length - i ⊓ 65 - 1) : ℚ) := by positivity
    nlinarith
  · rw [proto_vz_eq, computeVerticalSpeed_eq _ _ i hi2]
    simp only
    rw [if_neg]
    intro hpos
    have : (0 : ℚ) ≤ (specWindowSteps
        ((stepDeltas (diffDecodeTrack tr).timeSec (diffDecodeTrack tr).alt.length).getD i 0) 30
        ((diffDecodeTrack tr).alt.length - i ⊓ 35 - 1) : ℚ) := by positivity
    nlinarith

/-- C6 witness: decoded `timeSec = [5,5,5]`, index 1. -/
theorem claim_C6_witness :
    ((diffDecodeTrack trExC6).alt.length = (diffDecodeTrack trExC6).lat.length ∧
      1 < (diffDecodeTrack trExC6).lat.length ∧
      (diffDecodeTrack trExC6).timeSec.getD 1 0 -
        (diffDecodeTrack trExC6).timeSec.getD 0 0 ≤ 0) ∧
    (protoToRuntimeTrack (fun _ _ => 100) [] trExC6 false).vx.getD 1 0 = 0 ∧
    (protoToRuntimeTrack (fun _ _ => 100) [] trExC6 false).vz.getD 1 0 = 0 :=
  ⟨⟨by decide, by decide, by norm_num [diffDecodeTrack, diffDecodeArray, diffDecodeAux]⟩,
    claim_C6_zero_speed (fun _ _ => 100) [] trExC6 false 1 (by decide) (by decide)
      (Or.inr (by norm_num [diffDecodeTrack, diffDecodeArray, diffDecodeAux]))⟩

theorem foldl_max_mem (xs : List ℚ) : ∀ a : ℚ, xs.foldl max a = a ∨ xs.foldl max a ∈ xs := by
  induction xs with
  | nil => simp
  | cons b t ih =>
    intro a
    simp only [List.foldl_cons]
    rcases ih (max a b) with h | h
    · rcases max_choice a b with hm | hm
      · left; rw [h, hm]
      · right; rw [h, hm]; exact List.mem_cons_self b t
    · right; exact List.mem_cons_of_mem b h

theorem le_foldl_max (xs : List ℚ) :
    ∀ a : ℚ, a ≤ xs.foldl max a ∧ ∀ x ∈ xs, x ≤ xs.foldl max a := by
  induction xs with
  | nil => simp
  | cons b t ih =>
    intro a
    simp only [List.foldl_cons]
    refine ⟨le_trans (le_max_left a b) (ih (max a b)).1, ?_⟩
    intro x hx
    rcases List.mem_cons.mp hx with h | h
    · rw [h]; exact le_trans (le_max_right a b) (ih (max a b)).1
    · exact (ih (max a b)).2 x h

theorem foldl_min_mem (xs : List ℚ) : ∀ a : ℚ, xs.foldl min a = a ∨ xs.foldl min a ∈ xs := by
  induction xs with
  | nil => simp
  | cons b t ih =>
    intro a
    simp only [List.foldl_cons]
    rcases ih (min a b) with h | h
    · rcases min_choice a b with hm | hm
      · left; rw [h, hm]
      · right; rw [h, hm]; exact List.mem_cons_self b t
    · right; exact List.mem_cons_of_mem b h

theorem foldl_min_le (xs : List ℚ) :
    ∀ a : ℚ, xs.foldl min a ≤ a ∧ ∀ x ∈ xs, xs.foldl min a ≤ x := by
  induction xs with
  | nil => simp
  | cons b t ih =>
    intro a
    simp only [List.foldl_cons]
    refine ⟨le_trans (ih (min a b)).1 (min_le_left a b), ?_⟩
    intro x hx
    rcases List.mem_cons.mp hx with h | h
    · rw [h]; exact le_trans (ih (min a b)).1 (min_le_right a b)
    · exact (ih (min a b)).2 x h

theorem listMax_spec (l : List ℚ) (hl : l ≠ []) :
    listMax l ∈ l ∧ ∀ x ∈ l, x ≤ listMax l := by
  match l with
  | [] => exact absurd rfl hl
  | x :: xs =>
    simp only [listMax]
    constructor
    · rcases foldl_max_mem xs x with h | h
      · rw [h]; exact List.mem_cons_self x xs
      · exact List.mem_cons_of_mem x h
    · intro y hy
      rcases List.mem_cons.mp hy with h | h
      · rw [h]; exact (le_foldl_max xs x).1
      · exact (le_foldl_max xs x).2 y h

theorem listMin_spec (l : List ℚ) (hl : l ≠ []) :
    listMin l ∈ l ∧ ∀ x ∈ l, listMin l ≤ x := by
  match l with
  | [] => exact absurd rfl hl
  | x :: xs =>
    simp only [listMin]
    constructor
    · rcases foldl_min_mem xs x with h | h
      · rw [h]; exact List.mem_cons_self x xs
      · exact List.mem_cons_of_mem x h
    · intro y hy
      rcases List.mem_cons.mp hy with h | h
      · rw [h]; exact (foldl_min_le xs x).1
      · exact (foldl_min_le xs x).2 y h

theorem vxList_length (dist : LatLon → LatLon → ℚ) (track : Track) :
    (vxList dist track).length = track.lat.length := by
  simp [vxList]

theorem diffDecodeAux_length : ∀ (l : List ℚ) (acc : ℚ),
    (diffDecodeAux acc l).length = l.length := by
  intro l
  induction l with
  | nil => intro acc; rfl
  | cons v rest ih => intro acc; simp [diffDecodeAux, ih]

theorem diffDecodeArray_length (values : List ℚ) (scale : ℚ) :
    (diffDecodeArray values scale).length = values.length := by
  simp [diffDecodeArray, diffDecodeAux_length]

/-- C4: on a non-empty decoded trajectory, every assembled extremum field is the
true maximum/minimum of its array (`alt`, `lat`, `lon`, `timeSec`, `vx`, `vz`),
and `maxDistance` is the true maximum of the per-step distance array `distX`
built during the `vx` derivation. -/
theorem claim_C4_extrema (dist : LatLon → LatLon → ℚ) (idStr : List Char)
    (tr : Track) (post : Bool)
    (hlat : (diffDecodeTrack tr).lat ≠ []) (hlon : (diffDecodeTrack tr).lon ≠ [])
    (halt : (diffDecodeTrack tr).alt ≠ []) (htime : (diffDecodeTrack tr).timeSec ≠ []) :
    let rt := protoToRuntimeTrack dist idStr tr post
    ((rt.maxAlt ∈ rt.alt ∧ ∀ x ∈ rt.alt, x ≤ rt.maxAlt) ∧
     (rt.minAlt ∈ rt.alt ∧ ∀ x ∈ rt.alt, rt.minAlt ≤ x)) ∧
    ((rt.maxLat ∈ rt.lat ∧ ∀ x ∈ rt.lat, x ≤ rt.maxLat) ∧
     (rt.minLat ∈ rt.lat ∧ ∀ x ∈ rt.lat, rt.minLat ≤ x)) ∧
    ((rt.maxLon ∈ rt.lon ∧ ∀ x ∈ rt.lon, x ≤ rt.maxLon) ∧
     (rt.minLon ∈ rt.lon ∧ ∀ x ∈ rt.lon, rt.minLon ≤ x)) ∧
    ((rt.maxTimeSec ∈ rt.timeSec ∧ ∀ x ∈ rt.timeSec, x ≤ rt.maxTimeSec) ∧
     (rt.minTimeSec ∈ rt.timeSec ∧ ∀ x ∈ rt.timeSec, rt.minTimeSec ≤ x)) ∧
    ((rt.maxVx ∈ rt.vx ∧ ∀ x ∈ rt.vx, x ≤ rt.maxVx) ∧
     (rt.minVx ∈ rt.vx ∧ ∀ x ∈ rt.vx, rt.minVx ≤ x)) ∧
    ((rt.maxVz ∈ rt.vz ∧ ∀ x ∈ rt.vz, x ≤ rt.maxVz) ∧
     (rt.minVz ∈ rt.vz ∧ ∀ x ∈ rt.vz, rt.minVz ≤ x)) ∧
    (rt.maxDistance ∈ distXList dist (diffDecodeTrack tr) ∧
     ∀ x ∈ distXList dist (diffDecodeTrack tr), x ≤ rt.maxDistance) := by
  intro rt
  have hvx : vxList dist (diffDecodeTrack tr) ≠ [] := by
    have h1 := vxList_length dist (diffDecodeTrack tr)
    intro h
    rw [h] at h1
    exact hlat (List.eq_nil_of_length_eq_zero h1.symm)
  have hvz : computeVerticalSpeed (diffDecodeTrack tr).alt (diffDecodeTrack tr).timeSec ≠ [] := by
    have h1 := computeVerticalSpeed_length (diffDecodeTrack tr).alt (diffDecodeTrack tr).timeSec
    intro h
    rw [h] at h1
    exact halt (List.eq_nil_of_length_eq_zero h1.symm)
  exact ⟨⟨listMax_spec _ halt, listMin_spec _ halt⟩,
    ⟨listMax_spec _ hlat, listMin_spec _ hlat⟩,
    ⟨listMax_spec _ hlon, listMin_spec _ hlon⟩,
    ⟨listMax_spec _ htime, listMin_spec _ htime⟩,
    ⟨listMax_spec _ hvx, listMin_spec _ hvx⟩,
    ⟨listMax_spec _ hvz, listMin_spec _ hvz⟩,
    listMax_spec _ (by simp [distXList])⟩

/-- C4 witness: the concrete track `trExC1` with a constant distance function. -/
theorem claim_C4_witness :
    ((diffDecodeTrack trExC1).lat ≠ [] ∧ (diffDecodeTrack trExC1).lon ≠ [] ∧
     (diffDecodeTrack trExC1).alt ≠ [] ∧ (diffDecodeTrack trExC1).timeSec ≠ []) ∧
    (let rt := protoToRuntimeTrack (fun _ _ => 100) [] trExC1 false
     ((rt.maxAlt ∈ rt.alt ∧ ∀ x ∈ rt.alt, x ≤ rt.maxAlt) ∧
      (rt.minAlt ∈ rt.alt ∧ ∀ x ∈ rt.alt, rt.minAlt ≤ x)) ∧
     ((rt.maxLat ∈ rt.lat ∧ ∀ x ∈ rt.lat, x ≤ rt.maxLat) ∧
      (rt.minLat ∈ rt.lat ∧ ∀ x ∈ rt.lat, rt.minLat ≤ x)) ∧
     ((rt.maxLon ∈ rt.lon ∧ ∀ x ∈ rt.lon, x ≤ rt.maxLon) ∧
      (rt.minLon ∈ rt.lon ∧ ∀ x ∈ rt.lon, rt.minLon ≤ x)) ∧
     ((rt.maxTimeSec ∈ rt.timeSec ∧ ∀ x ∈ rt.timeSec, x ≤ rt.maxTimeSec) ∧
      (rt.minTimeSec ∈ rt.timeSec ∧ ∀ x ∈ rt.timeSec, rt.minTimeSec ≤ x)) ∧
     ((rt.maxVx ∈ rt.vx ∧ ∀ x ∈ rt.vx, x ≤ rt.maxVx) ∧
      (rt.minVx ∈ rt.vx ∧ ∀ x ∈ rt.vx, rt.minVx ≤ x)) ∧
     ((rt.maxVz ∈ rt.vz ∧ ∀ x ∈ rt.vz, x ≤ rt.maxVz) ∧
      (rt.minVz ∈ rt.vz ∧ ∀ x ∈ rt.vz, rt.minVz ≤ x)) ∧
     (rt.maxDistance ∈ distXList (fun _ _ => 100) (diffDecodeTrack trExC1) ∧
      ∀ x ∈ distXList (fun _ _ => 100) (diffDecodeTrack trExC1), x ≤ rt.maxDistance)) :=
  ⟨⟨by decide, by decide, by decide, by decide⟩,
    claim_C4_extrema (fun _ _ => 100) [] trExC1 false
      (by decide) (by decide) (by decide) (by decide)⟩

/-- C5: `addGroundAltitude` overwrites `gndAlt` with the decoded altitudes exactly
when the encoded array is present and matches the trajectory length; on a length
mismatch or an absent array the whole track is returned unchanged (silent skip,
no failure). -/
theorem claim_C5_ground_merge (track : RuntimeTrack) (g : GroundAltitude) :
    (∀ alts, g.altitudes = some alts →
      ((alts.length = track.lat.length →
        addGroundAltitude track g = { track with gndAlt := diffDecodeArray alts 1 }) ∧
       (alts.length ≠ track.lat.length → addGroundAltitude track g = track))) ∧
    (g.altitudes = none → addGroundAltitude track g = track) := by
  constructor
  · intro alts ha
    simp only [addGroundAltitude, ha]
    constructor
    · intro hlen; rw [if_pos hlen]
    · intro hlen; rw [if_neg hlen]
  · intro ha
    simp only [addGroundAltitude, ha]

/-- C5 witness: a present, length-matching overlay on a 3-sample track is merged. -/
theorem claim_C5_witness :
    addGroundAltitude (protoToRuntimeTrack (fun _ _ => 0) [] trExC6 false)
        ⟨some [5, 6, 7]⟩ =
      { protoToRuntimeTrack (fun _ _ => 0) [] trExC6 false with
        gndAlt := diffDecodeArray [5, 6, 7] 1 } :=
  ((claim_C5_ground_merge (protoToRuntimeTrack (fun _ _ => 0) [] trExC6 false)
    ⟨some [5, 6, 7]⟩).1 [5, 6, 7] rfl).1 (by decide)

/-- C7: every derived array of the assembled record has exactly the trajectory
length `N`, and `addGroundAltitude` can only replace `gndAlt` by an array of
length `N`. -/
theorem claim_C7_lengths (dist : LatLon → LatLon → ℚ) (idStr : List Char)
    (tr : Track) (post : Bool)
    (hlon : tr.lon.length = tr.lat.length) (halt : tr.alt.length = tr.lat.length)
    (htime : tr.timeSec.length = tr.lat.length) :
    let rt := protoToRuntimeTrack dist idStr tr post
    rt.vx.length = tr.lat.length ∧ rt.vz.length = tr.lat.length ∧
    rt.gndAlt.length = tr.lat.length ∧ rt.heading.length = tr.lat.length ∧
    rt.lookAtLat.length = tr.lat.length ∧ rt.lookAtLon.length = tr.lat.length ∧
    ∀ g : GroundAltitude, (addGroundAltitude rt g).gndAlt.length = tr.lat.length := by
  intro rt
  have hdlat : (diffDecodeTrack tr).lat.length = tr.lat.length := diffDecodeArray_length _ _
  have hdlon : (diffDecodeTrack tr).lon.length = tr.lat.length := by
    rw [← hlon]; exact diffDecodeArray_length _ _
  have hdalt : (diffDecodeTrack tr).alt.length = tr.lat.length := by
    rw [← halt]; exact diffDecodeArray_length _ _
  have h1 : rt.vx.length = tr.lat.length := by
    rw [show rt.vx = vxList dist (diffDecodeTrack tr) from rfl, vxList_length, hdlat]
  have h2 : rt.vz.length = tr.lat.length := by
    rw [show rt.vz = computeVerticalSpeed (diffDecodeTrack tr).alt
        (diffDecodeTrack tr).timeSec from rfl, computeVerticalSpeed_length, hdalt]
  have h3 : rt.gndAlt.length = tr.lat.length := by
    rw [show rt.gndAlt = List.replicate (diffDecodeTrack tr).lat.length (0 : ℚ) from rfl,
      List.length_replicate, hdlat]
  have h4 : rt.heading.length = tr.lat.length := by
    rw [show rt.heading = List.replicate (diffDecodeTrack tr).lat.length (0 : ℚ) from rfl,
      List.length_replicate, hdlat]
  have h5 : rt.lookAtLat.length = tr.lat.length := by
    rw [show rt.lookAtLat = (diffDecodeTrack tr).lat from rfl, hdlat]
  have h6 : rt.lookAtLon.length = tr.lat.length := by
    rw [show rt.lookAtLon = (diffDecodeTrack tr).lon from rfl, hdlon]
  refine ⟨h1, h2, h3, h4, h5, h6, ?_⟩
  intro g
  rcases hg : g.altitudes with _ | alts
  · simp only [addGroundAltitude, hg]
    exact h3
  · simp only [addGroundAltitude, hg]
    by_cases hl : alts.length = rt.lat.length
    · rw [if_pos hl]
      show (diffDecodeArray alts 1).length = tr.lat.length
      rw [diffDecodeArray_length, hl]
      exact hdlat
    · rw [if_neg hl]
      exact h3

/-- C7 witness: the concrete track `trExC1` (all arrays of length 4) and a
length-3 overlay. -/
theorem claim_C7_witness :
    (trExC1.lon.length = trExC1.lat.length ∧ trExC1.alt.length = trExC1.lat.length ∧
      trExC1.timeSec.length = trExC1.lat.length) ∧
    (let rt := protoToRuntimeTrack (fun _ _ => 100) [] trExC1 false
     rt.vx.length = trExC1.lat.length ∧ rt.vz.length = trExC1.lat.length ∧
     rt.gndAlt.length = trExC1.lat.length ∧ rt.heading.length = trExC1.lat.length ∧
     rt.lookAtLat.length = trExC1.lat.length ∧ rt.lookAtLon.length = trExC1.lat.length ∧
     ∀ g : GroundAltitude, (addGroundAltitude rt g).gndAlt.length = trExC1.lat.length) :=
  ⟨⟨by decide, by decide, by decide⟩,
    claim_C7_lengths (fun _ _ => 100) [] trExC1 false (by decide) (by decide) (by decide)⟩

theorem digitChar_isDigit (d : ℕ) : (digitChar d).isDigit = true := by
  rcases d with _|_|_|_|_|_|_|_|_|d <;> rfl

theorem digitVal_digitChar (d : ℕ) (hd : d < 10) : digitVal (digitChar d) = d := by
  interval_cases d <;> decide

theorem digitsOfNat_all_digits (n : ℕ) : ∀ c ∈ digitsOfNat n, c.isDigit = true := by
  intro c hc
  unfold digitsOfNat at hc
  split at hc
  · rcases List.mem_singleton.mp hc with rfl
    decide
  · rcases List.mem_map.mp hc with ⟨d, _, rfl⟩
    exact digitChar_isDigit d

theorem digitsOfNat_ne_nil (n : ℕ) : digitsOfNat n ≠ [] := by
  unfold digitsOfNat
  split
  · simp
  · rename_i hn
    simp only [ne_eq, List.map_eq_nil_iff, List.reverse_eq_nil_iff]
    exact Nat.digits_ne_nil_iff_ne_zero.mpr hn

theorem valOfDigits_of_digit_list (ds : List ℕ) (hds : ∀ d ∈ ds, d < 10) :
    valOfDigits ((ds.reverse).map digitChar) = Nat.ofDigits 10 ds := by
  induction ds with
  | nil => rfl
  | cons d t ih =>
    have hd : d < 10 := hds d (List.mem_cons_self d t)
    have ht : ∀ x ∈ t, x < 10 := fun x hx => hds x (List.mem_cons_of_mem d hx)
    simp only [List.reverse_cons, List.map_append, List.map_cons, List.map_nil]
    unfold valOfDigits
    rw [List.foldl_append, Nat.ofDigits_cons]
    simp only [List.foldl_cons, List.foldl_nil]
    rw [show List.foldl (fun a c => 10 * a + digitVal c) 0 ((t.reverse).map digitChar)
        = valOfDigits ((t.reverse).map digitChar) from rfl, ih ht,
      digitVal_digitChar d hd]
    ring

theorem valOfDigits_digitsOfNat (n : ℕ) : valOfDigits (digitsOfNat n) = n := by
  unfold digitsOfNat
  split
  · rename_i h; rw [h]; decide
  · rw [valOfDigits_of_digit_list (Nat.digits 10 n)
      (fun d hd => Nat.digits_lt_base (by norm_num) hd), Nat.ofDigits_digits]

theorem takeWhile_digits_append (dg rest : List Char)
    (hdg : ∀ c ∈ dg, c.isDigit = true) :
    (dg ++ '-' :: rest).takeWhile Char.isDigit = dg ∧
    (dg ++ '-' :: rest).dropWhile Char.isDigit = '-' :: rest := by
  induction dg with
  | nil => constructor <;> simp [List.takeWhile_cons, List.dropWhile_cons]
  | cons c t ih =>
    have hc : c.isDigit = true := hdg c (List.mem_cons_self c t)
    have ht : ∀ x ∈ t, x.isDigit = true := fun x hx => hdg x (List.mem_cons_of_mem c hx)
    constructor
    · simp only [List.cons_append, List.takeWhile_cons, hc, if_true]
      rw [(ih ht).1]
    · simp only [List.cons_append, List.dropWhile_cons, hc, if_true]
      exact (ih ht).2

/-- C8: `extractGroupId` is a left inverse of `createTrackId` on the group id;
any string that does not begin with a non-empty digit run followed by a dash
maps to the sentinel -1; in particular `extractGroupId "42-3" = 42` and
`extractGroupId "bogus" = -1`. -/
theorem claim_C8_ids :
    (∀ g i : ℕ, extractGroupId (createTrackId g i) = g) ∧
    (∀ s : List Char,
      (¬ ∃ dgs rest, s = dgs ++ '-' :: rest ∧ dgs ≠ [] ∧ ∀ c ∈ dgs, c.isDigit = true) →
      extractGroupId s = -1) ∧
    extractGroupId ('4' :: '2' :: '-' :: '3' :: []) = 42 ∧
    extractGroupId ('b' :: 'o' :: 'g' :: 'u' :: 's' :: []) = -1 := by
  refine ⟨?_, ?_, by decide, by decide⟩
  · intro g i
    simp only [extractGroupId, createTrackId]
    have h6 := takeWhile_digits_append (digitsOfNat g) (digitsOfNat i)
      (digitsOfNat_all_digits g)
    rw [h6.1, h6.2]
    rw [if_pos ⟨digitsOfNat_ne_nil g, rfl⟩]
    rw [valOfDigits_digitsOfNat]
  · intro s hno
    simp only [extractGroupId]
    split
    · rename_i hguard
      exfalso
      apply hno
      obtain ⟨hne, hhead⟩ := hguard
      have hsplit : s.takeWhile Char.isDigit ++ s.dropWhile Char.isDigit = s :=
        List.takeWhile_append_dropWhile Char.isDigit s
      have hdrop : s.dropWhile Char.isDigit = '-' :: (s.dropWhile Char.isDigit).tail := by
        cases hd : s.dropWhile Char.isDigit with
        | nil => rw [hd] at hhead; simp at hhead
        | cons a t =>
          rw [hd] at hhead
          simp only [List.head?_cons, Option.some.injEq] at hhead
          rw [hhead]
          rfl
      refine ⟨s.takeWhile Char.isDigit, (s.dropWhile Char.isDigit).tail, ?_, hne, ?_⟩
      · rw [hdrop] at hsplit
        exact hsplit.symm
      · intro c hc
        exact List.mem_takeWhile_imp hc
    · rfl

/-- C8 witness: the id round-trip at `(42, 3)` and rejection of `"bogus"`. -/
theorem claim_C8_witness :
    extractGroupId (createTrackId 42 3) = 42 ∧
    extractGroupId ('b' :: 'o' :: 'g' :: 'u' :: 's' :: []) = -1 :=
  ⟨claim_C8_ids.1 42 3,
    claim_C8_ids.2.1 ('b' :: 'o' :: 'g' :: 'u' :: 's' :: []) (by
      rintro ⟨dgs, rest, heq, hne, hdig⟩
      match dgs, hne with
      | [], hne => exact hne rfl
      | c :: t, _ =>
        simp only [List.cons_append] at heq
        obtain ⟨hc, -⟩ := List.cons.inj heq
        have hd := hdig c (List.mem_cons_self c t)
        rw [← hc] at hd
        exact absurd hd (by decide))⟩

theorem decodeAux_encodeAux_exact : ∀ (v : List ℚ) (prev : ℚ),
    diffDecodeAux prev (diffEncodeAux 1 false prev v) = v := by
  intro v
  induction v with
  | nil => intro prev; rfl
  | cons x rest ih =>
    intro prev
    simp only [diffEncodeAux, if_neg (by simp : ¬ (false = true)), diffDecodeAux]
    have h1 : prev + (x - prev) * 1 = x := by ring
    rw [h1, ih x]

/-- The `timeSec` field (scale 1, no rounding) round-trips exactly. -/
theorem diffDecodeArray_encode_exact (v : List ℚ) :
    diffDecodeArray (diffEncodeArray v 1 false) 1 = v := by
  unfold diffDecodeArray diffEncodeArray
  rw [decodeAux_encodeAux_exact v 0]
  simp

theorem diffEncodeAux_length (scale : ℚ) (rnd : Bool) : ∀ (v : List ℚ) (prev : ℚ),
    (diffEncodeAux scale rnd prev v).length = v.length := by
  intro v
  induction v with
  | nil => intro prev; rfl
  | cons x rest ih => intro prev; simp [diffEncodeAux, ih]

theorem decodeAux_encodeAux_bound (s : ℚ) :
    ∀ (v : List ℚ) (prev acc c : ℚ), |acc - prev * s| ≤ c →
    ∀ i, i < v.length →
    |(diffDecodeAux acc (diffEncodeAux s true prev v)).getD i 0 - (v.getD i 0) * s| ≤
      c + ((i : ℚ) + 1) / 2 := by
  intro v
  induction v with
  | nil => intro prev acc c hc i hi; simp at hi
  | cons x rest ih =>
    intro prev acc c hc i hi
    simp only [diffEncodeAux, if_pos rfl, diffDecodeAux]
    cases i with
    | zero =>
      simp only [List.getD_cons_zero, Nat.cast_zero]
      have hr : |((round ((x - prev) * s) : ℤ) : ℚ) - (x - prev) * s| ≤ 1 / 2 := by
        rw [abs_sub_comm]
        exact abs_sub_round ((x - prev) * s)
      calc |acc + ((round ((x - prev) * s) : ℤ) : ℚ) - x * s|
          = |(acc - prev * s) + (((round ((x - prev) * s) : ℤ) : ℚ) - (x - prev) * s)| := by
            ring_nf
        _ ≤ |acc - prev * s| + |((round ((x - prev) * s) : ℤ) : ℚ) - (x - prev) * s| :=
            abs_add _ _
        _ ≤ c + (0 + 1) / 2 := by
            have := hr
            linarith
    | succ j =>
      simp only [List.getD_cons_succ]
      have hj : j < rest.length := by simpa using hi
      have hstep : |(acc + ((round ((x - prev) * s) : ℤ) : ℚ)) - x * s| ≤ c + 1 / 2 := by
        have hr : |((round ((x - prev) * s) : ℤ) : ℚ) - (x - prev) * s| ≤ 1 / 2 := by
          rw [abs_sub_comm]
          exact abs_sub_round ((x - prev) * s)
        calc |(acc + ((round ((x - prev) * s) : ℤ) : ℚ)) - x * s|
            = |(acc - prev * s) + (((round ((x - prev) * s) : ℤ) : ℚ) - (x - prev) * s)| := by
              ring_nf
          _ ≤ |acc - prev * s| + |((round ((x - prev) * s) : ℤ) : ℚ) - (x - prev) * s| :=
              abs_add _ _
          _ ≤ c + 1 / 2 := by linarith
      have := ih x (acc + ((round ((x - prev) * s) : ℤ) : ℚ)) (c + 1 / 2) hstep j hj
      calc |(diffDecodeAux (acc + ((round ((x - prev) * s) : ℤ) : ℚ))
              (diffEncodeAux s true x rest)).getD j 0 - (rest.getD j 0) * s|
          ≤ (c + 1 / 2) + ((j : ℚ) + 1) / 2 := this
        _ = c + (((j : ℚ) + 1) + 1) / 2 := by ring
        _ = c + (((j + 1 : ℕ) : ℚ) + 1) / 2 := by push_cast; ring

/-- Rounded encode at positive scale `s`: the decoded value at index `i` is
within `(i+1)/2` quantization steps of the original (rounding errors of the
stored deltas accumulate across the prefix sum). -/
theorem diffDecodeArray_encode_bound (v : List ℚ) (s : ℚ) (hs : 0 < s) (i : ℕ)
    (hi : i < v.length) :
    |(diffDecodeArray (diffEncodeArray v s true) s).getD i 0 - v.getD i 0| ≤
      ((i : ℚ) + 1) / (2 * s) := by
  have hlen : i < (diffDecodeAux 0 (diffEncodeAux s true 0 v)).length := by
    rw [diffDecodeAux_length, diffEncodeAux_length]
    exact hi
  have hb := decodeAux_encodeAux_bound s v 0 0 0 (by simp) i hi
  unfold diffDecodeArray diffEncodeArray
  rw [List.getD_eq_getElem _ _ (by simpa using hlen), List.getElem_map]
  rw [List.getD_eq_getElem _ _ hlen] at hb
  have hP : (diffDecodeAux 0 (diffEncodeAux s true 0 v))[i] / s - v.getD i 0
      = ((diffDecodeAux 0 (diffEncodeAux s true 0 v))[i] - v.getD i 0 * s) / s := by
    field_simp
    ring
  rw [hP, abs_div, abs_of_pos hs, div_le_div_iff₀ hs (by positivity)]
  rw [zero_add] at hb
  calc |(diffDecodeAux 0 (diffEncodeAux s true 0 v))[i] - v.getD i 0 * s| * (2 * s)
      ≤ (((i : ℚ) + 1) / 2) * (2 * s) := by
        have h2s : (0 : ℚ) < 2 * s := by positivity
        exact mul_le_mul_of_nonneg_right hb (le_of_lt h2s)
    _ = ((i : ℚ) + 1) * s := by ring

/-- C3 counterexample: on `cexTrack` (lat steps of 0.4 quantization units) the
decoded latitude at index 2 is more than one quantization step (1e-5 degrees)
away from the original: the claim's "within one quantization step" bound for
lat/lon is false. -/
theorem claim_C3_counterexample :
    ¬ (∀ i, i < cexTrack.lat.length →
        |(diffDecodeTrack (diffEncodeTrack cexTrack)).lat.getD i 0 -
          cexTrack.lat.getD i 0| ≤ 1 / 100000) := by
  intro h
  have h2 := h 2 (by decide)
  have hlat : (diffDecodeTrack (diffEncodeTrack cexTrack)).lat = [0, 0, 0] := by
    norm_num [cexTrack, diffEncodeTrack, diffDecodeTrack, diffEncodeArray,
      diffDecodeArray, diffEncodeAux, diffDecodeAux, round_eq]
  rw [hlat] at h2
  norm_num [cexTrack] at h2
  rw [abs_of_nonneg (by norm_num : (0 : ℚ) ≤ 3 / 250000)] at h2
  norm_num at h2

/-- C3 (amended): the differential round-trip reconstructs `timeSec`
(`round = false`, scale 1) exactly; for the rounded lat/lon fields (scale 1e5)
the decoded value at index `i` is within `(i+1)/2` quantization steps of the
original — the per-delta rounding errors can accumulate along the prefix sum, so
"within one quantization step" holds for the stored deltas, not for the
reconstructed values. -/
theorem claim_C3_roundtrip_amended (tr : Track) :
    (diffDecodeTrack (diffEncodeTrack tr)).timeSec = tr.timeSec ∧
    (∀ i, i < tr.lat.length →
      |(diffDecodeTrack (diffEncodeTrack tr)).lat.getD i 0 - tr.lat.getD i 0| ≤
        ((i : ℚ) + 1) / (2 * 100000)) ∧
    (∀ i, i < tr.lon.length →
      |(diffDecodeTrack (diffEncodeTrack tr)).lon.getD i 0 - tr.lon.getD i 0| ≤
        ((i : ℚ) + 1) / (2 * 100000)) := by
  refine ⟨?_, ?_, ?_⟩
  · exact diffDecodeArray_encode_exact tr.timeSec
  · intro i hi
    exact diffDecodeArray_encode_bound tr.lat 100000 (by norm_num) i hi
  · intro i hi
    exact diffDecodeArray_encode_bound tr.lon 100000 (by norm_num) i hi

/-- C3 witness: the amended bounds instantiated at `cexTrack`, index 2. -/
theorem claim_C3_witness :
    (diffDecodeTrack (diffEncodeTrack cexTrack)).timeSec = cexTrack.timeSec ∧
    (2 < cexTrack.lat.length ∧
      |(diffDecodeTrack (diffEncodeTrack cexTrack)).lat.getD 2 0 -
        cexTrack.lat.getD 2 0| ≤ ((2 : ℚ) + 1) / (2 * 100000)) :=
  ⟨(claim_C3_roundtrip_amended cexTrack).1,
    by decide,
    (claim_C3_roundtrip_amended cexTrack).2.1 2 (by decide)⟩

theorem set_self_eq {α : Type} (l : List α) (i : ℕ) (h : i < l.length) :
    l.set i l[i] = l := by
  apply List.ext_getElem
  · simp
  · intro n h1 h2
    simp only [List.getElem_set]
    split
    · rename_i he; subst he; rfl
    · rfl

theorem addGroundAltitude_key (t : RuntimeTrack) (g : GroundAltitude) :
    trackKey (addGroundAltitude t g) = trackKey t := by
  rcases hg : g.altitudes with _ | alts
  · simp only [addGroundAltitude, hg]
  · simp only [addGroundAltitude, hg]
    split <;> rfl

theorem addAirspaces_key (t : RuntimeTrack) (a : Airspaces) :
    trackKey (addAirspaces t a) = trackKey t := rfl

theorem buildRtTracks_length (dist : LatLon → LatLon → ℚ) (gid : ℕ) (np : Bool) :
    ∀ (ts : List Track) (i : ℕ), (buildRtTracks dist gid np ts i).length = ts.length := by
  intro ts
  induction ts with
  | nil => intro i; rfl
  | cons t rest ih => intro i; simp [buildRtTracks, ih]

theorem buildRtTracks_keys (dist : LatLon → LatLon → ℚ) (gid : ℕ) (np : Bool) :
    ∀ (ts : List Track) (i : ℕ),
    (buildRtTracks dist gid np ts i).map trackKey =
      (List.range ts.length).map (fun k => (createTrackId gid (i + k), np)) := by
  intro ts
  induction ts with
  | nil => intro i; rfl
  | cons t rest ih =>
    intro i
    simp only [buildRtTracks, List.map_cons, List.length_cons, List.range_succ_eq_map,
      List.map_map]
    congr 1
    rw [ih (i + 1)]
    apply List.map_congr_left
    intro k _
    simp only [Function.comp_apply]
    have h1 : i + 1 + k = i + (k + 1) := by omega
    rw [h1]

theorem mergeGroundAll_some :
    ∀ (gs : List GroundAltitude) (i : ℕ) (tracks : List RuntimeTrack),
    i + gs.length ≤ tracks.length →
    ∃ tracks', mergeGroundAll tracks gs i = some tracks' ∧
      tracks'.length = tracks.length ∧ tracks'.map trackKey = tracks.map trackKey := by
  intro gs
  induction gs with
  | nil => intro i tracks _; exact ⟨tracks, rfl, rfl, rfl⟩
  | cons g rest ih =>
    intro i tracks hle
    rcases hg : g.altitudes with _ | alts
    · simp only [mergeGroundAll, hg]
      exact ih (i + 1) tracks (by simp at hle; omega)
    · have hi : i < tracks.length := by simp at hle; omega
      simp only [mergeGroundAll, hg]
      rw [dif_pos hi]
      obtain ⟨t', heq, hlen, hkey⟩ := ih (i + 1)
        (tracks.set i (addGroundAltitude (tracks.get ⟨i, hi⟩) g))
        (by simp at hle ⊢; omega)
      refine ⟨t', heq, ?_, ?_⟩
      · rw [hlen, List.length_set]
      · rw [hkey, List.map_set, addGroundAltitude_key]
        have hm : i < (tracks.map trackKey).length := by rw [List.length_map]; exact hi
        have hget : trackKey (tracks.get ⟨i, hi⟩) = (tracks.map trackKey).get ⟨i, hm⟩ := by
          rw [List.get_eq_getElem, List.get_eq_getElem, List.getElem_map]
        rw [hget, List.get_eq_getElem, set_self_eq]

theorem mergeAirspacesAll_some :
    ∀ (asps : List Airspaces) (i : ℕ) (tracks : List RuntimeTrack),
    i + asps.length ≤ tracks.length →
    ∃ tracks', mergeAirspacesAll tracks asps i = some tracks' ∧
      tracks'.length = tracks.length ∧ tracks'.map trackKey = tracks.map trackKey := by
  intro asps
  induction asps with
  | nil => intro i tracks _; exact ⟨tracks, rfl, rfl, rfl⟩
  | cons a rest ih =>
    intro i tracks hle
    have hi : i < tracks.length := by simp at hle; omega
    simp only [mergeAirspacesAll]
    rw [dif_pos hi]
    obtain ⟨t', heq, hlen, hkey⟩ := ih (i + 1)
      (tracks.set i (addAirspaces (tracks.get ⟨i, hi⟩) a))
      (by simp at hle ⊢; omega)
    refine ⟨t', heq, ?_, ?_⟩
    · rw [hlen, List.length_set]
    · rw [hkey, List.map_set, addAirspaces_key]
      have hm : i < (tracks.map trackKey).length := by rw [List.length_map]; exact hi
      have hget : trackKey (tracks.get ⟨i, hi⟩) = (tracks.map trackKey).get ⟨i, hm⟩ := by
        rw [List.get_eq_getElem, List.get_eq_getElem, List.getElem_map]
      rw [hget, List.get_eq_getElem, set_self_eq]

theorem mergeGroundAll_length_of_some :
    ∀ (gs : List GroundAltitude) (i : ℕ) (tracks tracks' : List RuntimeTrack),
    mergeGroundAll tracks gs i = some tracks' → tracks'.length = tracks.length := by
  intro gs
  induction gs with
  | nil => intro i tracks tracks' h; injection h with h; rw [← h]
  | cons g rest ih =>
    intro i tracks tracks' h
    rcases hg : g.altitudes with _ | alts
    · simp only [mergeGroundAll, hg] at h
      exact ih (i + 1) tracks tracks' h
    · simp only [mergeGroundAll, hg] at h
      by_cases hi : i < tracks.length
      · rw [dif_pos hi] at h
        have := ih (i + 1) _ _ h
        rw [this, List.length_set]
      · rw [dif_neg hi] at h
        exact absurd h (by simp)

theorem mergeAirspacesAll_none :
    ∀ (asps : List Airspaces) (i : ℕ) (tracks : List RuntimeTrack),
    asps ≠ [] → tracks.length < i + asps.length →
    mergeAirspacesAll tracks asps i = none := by
  intro asps
  induction asps with
  | nil => intro i tracks hne _; exact absurd rfl hne
  | cons a rest ih =>
    intro i tracks _ hlt
    simp only [mergeAirspacesAll]
    by_cases hi : i < tracks.length
    · rw [dif_pos hi]
      rcases rest with _ | ⟨b, rest2⟩
      · simp at hlt; omega
      · exact ih (i + 1) _ (by simp) (by simp at hlt ⊢; omega)
    · rw [dif_neg hi]

theorem mergeGroundAll_none :
    ∀ (gs : List GroundAltitude) (i : ℕ) (tracks : List RuntimeTrack),
    gs ≠ [] → tracks.length < i + gs.length → (∀ ga ∈ gs, ga.altitudes ≠ none) →
    mergeGroundAll tracks gs i = none := by
  intro gs
  induction gs with
  | nil => intro i tracks hne _ _; exact absurd rfl hne
  | cons g rest ih =>
    intro i tracks _ hlt hall
    rcases hg : g.altitudes with _ | alts
    · exact absurd hg (hall g (List.mem_cons_self g rest))
    · simp only [mergeGroundAll, hg]
      by_cases hi : i < tracks.length
      · rw [dif_pos hi]
        rcases rest with _ | ⟨b, rest2⟩
        · simp at hlt; omega
        · exact ih (i + 1) _ (by simp) (by simp at hlt ⊢; omega)
            (fun ga hga => hall ga (List.mem_cons_of_mem g hga))
      · rw [dif_neg hi]

theorem groupTracks_length (dist : LatLon → LatLon → ℚ) (g : MetaTrackGroup) :
    (groupTracks dist g).length = trackCount g := by
  rcases htg : g.trackGroupBin with _ | ts
  · simp [groupTracks, trackCount, htg]
  · simp [groupTracks, trackCount, htg, buildRtTracks_length]

theorem groupTracks_keys (dist : LatLon → LatLon → ℚ) (g : MetaTrackGroup) :
    (groupTracks dist g).map trackKey = specGroupKeys g := by
  rcases htg : g.trackGroupBin with _ | ts
  · simp [groupTracks, specGroupKeys, htg]
  · simp only [groupTracks, specGroupKeys, htg]
    rw [buildRtTracks_keys]
    apply List.map_congr_left
    intro k _
    simp

theorem processGroup_some (dist : LatLon → LatLon → ℚ) (g : MetaTrackGroup)
    (hg1 : ∀ gs, g.groundAltitudeGroupBin = some gs → gs.length ≤ trackCount g)
    (hg2 : ∀ asps, g.airspacesGroupBin = some asps → asps.length ≤ trackCount g) :
    ∃ l, processGroup dist g = some l ∧ l.map trackKey = specGroupKeys g := by
  have hmid : ∃ tracks, (match g.groundAltitudeGroupBin with
      | none => some (groupTracks dist g)
      | some gs => mergeGroundAll (groupTracks dist g) gs 0) = some tracks ∧
      tracks.length = trackCount g ∧ tracks.map trackKey = specGroupKeys g := by
    rcases hgnd : g.groundAltitudeGroupBin with _ | gs
    · exact ⟨groupTracks dist g, rfl, groupTracks_length dist g, groupTracks_keys dist g⟩
    · obtain ⟨t', heq, hlen, hkey⟩ := mergeGroundAll_some gs 0 (groupTracks dist g)
        (by rw [groupTracks_length]; simpa using hg1 gs hgnd)
      exact ⟨t', heq, by rw [hlen, groupTracks_length],
        by rw [hkey, groupTracks_keys]⟩
  obtain ⟨tracks, hmatch, hlen, hkey⟩ := hmid
  rcases hasp : g.airspacesGroupBin with _ | asps
  · exact ⟨tracks, by simp only [processGroup, hmatch, hasp], hkey⟩
  · obtain ⟨t2, heq2, hlen2, hkey2⟩ := mergeAirspacesAll_some asps 0 tracks
      (by rw [hlen]; simpa using hg2 asps hasp)
    exact ⟨t2, by simp only [processGroup, hmatch, hasp, heq2],
      by rw [hkey2, hkey]⟩

theorem processGroup_none_air (dist : LatLon → LatLon → ℚ) (g : MetaTrackGroup)
    (asps : List Airspaces) (ha : g.airspacesGroupBin = some asps)
    (hlt : trackCount g < asps.length) : processGroup dist g = none := by
  have hane : asps ≠ [] := by
    intro h; rw [h] at hlt; simp at hlt
  rcases hgnd : g.groundAltitudeGroupBin with _ | gs
  · have hm : mergeAirspacesAll (groupTracks dist g) asps 0 = none :=
      mergeAirspacesAll_none asps 0 _ hane (by rw [groupTracks_length]; omega)
    simp only [processGroup, hgnd, ha, hm]
  · cases hmg : mergeGroundAll (groupTracks dist g) gs 0 with
    | none => simp only [processGroup, hgnd, hmg]
    | some tracks =>
      have hlen : tracks.length = trackCount g := by
        rw [mergeGroundAll_length_of_some gs 0 _ _ hmg, groupTracks_length]
      have hm : mergeAirspacesAll tracks asps 0 = none :=
        mergeAirspacesAll_none asps 0 tracks hane (by omega)
      simp only [processGroup, hgnd, hmg, ha, hm]

theorem processGroup_none_gnd (dist : LatLon → LatLon → ℚ) (g : MetaTrackGroup)
    (gs : List GroundAltitude) (hg : g.groundAltitudeGroupBin = some gs)
    (hlt : trackCount g < gs.length) (hall : ∀ ga ∈ gs, ga.altitudes ≠ none) :
    processGroup dist g = none := by
  have hgne : gs ≠ [] := by
    intro h; rw [h] at hlt; simp at hlt
  have hm : mergeGroundAll (groupTracks dist g) gs 0 = none :=
    mergeGroundAll_none gs 0 _ hgne (by rw [groupTracks_length]; omega) hall
  simp only [processGroup, hg, hm]

theorem createRuntimeTracks_none (dist : LatLon → LatLon → ℚ)
    (groups : List MetaTrackGroup) (g : MetaTrackGroup) (hmem : g ∈ groups)
    (hfail : processGroup dist g = none) :
    createRuntimeTracks dist groups = none := by
  induction groups with
  | nil => cases hmem
  | cons h rest ih =>
    rcases List.mem_cons.mp hmem with rfl | hmem2
    · simp only [createRuntimeTracks, hfail]
    · cases hp : processGroup dist h with
      | none => simp only [createRuntimeTracks, hp]
      | some ts => simp only [createRuntimeTracks, hp, ih hmem2]

/-- C9: under the safety precondition of C10 (each overlay container no longer
than the group's decoded tracks), `createRuntimeTracks` succeeds, produces one
track per decoded trajectory in group order and in-group order, with id
`createTrackId groupId indexInGroup` and `isPostProcessed` true iff
`numPostprocess > 0`; a group with an absent trajectory container contributes
the empty list. -/
theorem claim_C9_assembly (dist : LatLon → LatLon → ℚ)
    (groups : List MetaTrackGroup)
    (hsafe : ∀ g ∈ groups,
      (∀ gs, g.groundAltitudeGroupBin = some gs → gs.length ≤ trackCount g) ∧
      (∀ asps, g.airspacesGroupBin = some asps → asps.length ≤ trackCount g)) :
    ∃ l, createRuntimeTracks dist groups = some l ∧
      l.map trackKey = groups.flatMap specGroupKeys := by
  induction groups with
  | nil => exact ⟨[], rfl, by simp⟩
  | cons g rest ih =>
    obtain ⟨tg, hpg, hkg⟩ := processGroup_some dist g
      (hsafe g (List.mem_cons_self g rest)).1 (hsafe g (List.mem_cons_self g rest)).2
    obtain ⟨lr, hcr, hkr⟩ := ih (fun x hx => hsafe x (List.mem_cons_of_mem g hx))
    refine ⟨tg ++ lr, ?_, ?_⟩
    · simp only [createRuntimeTracks, hpg, hcr]
    · rw [List.map_append, hkg, hkr, List.flatMap_cons]

/-- C9 witness: two groups — one with a single post-processed trajectory, one
with an absent trajectory container. -/
theorem claim_C9_witness :
    (∀ g ∈ [gExA, gExB],
      (∀ gs, g.groundAltitudeGroupBin = some gs → gs.length ≤ trackCount g) ∧
      (∀ asps, g.airspacesGroupBin = some asps → asps.length ≤ trackCount g)) ∧
    (∃ l, createRuntimeTracks (fun _ _ => 100) [gExA, gExB] = some l ∧
      l.map trackKey = [gExA, gExB].flatMap specGroupKeys) := by
  have hs : ∀ g ∈ [gExA, gExB],
      (∀ gs, g.groundAltitudeGroupBin = some gs → gs.length ≤ trackCount g) ∧
      (∀ asps, g.airspacesGroupBin = some asps → asps.length ≤ trackCount g) := by
    intro g hg
    rcases List.mem_cons.mp hg with rfl | hg2
    · exact ⟨fun gs h => by simp [gExA] at h, fun asps h => by simp [gExA] at h⟩
    · rcases List.mem_cons.mp hg2 with rfl | hg3
      · exact ⟨fun gs h => by simp [gExB] at h, fun asps h => by simp [gExB] at h⟩
      · cases hg3
  exact ⟨hs, claim_C9_assembly (fun _ _ => 100) [gExA, gExB] hs⟩

/-- C10: the positional overlay merges in `createRuntimeTracks` have no bounds
check: whenever a group carries more airspaces overlay entries than decoded
tracks — or more ground-altitude entries, each with its altitude array present —
the indexed track is `undefined`, the merge dereferences it, and the whole call
fails (`none`) instead of skipping silently. -/
theorem claim_C10_overlay_failure (dist : LatLon → LatLon → ℚ)
    (groups : List MetaTrackGroup) (g : MetaTrackGroup) (hmem : g ∈ groups) :
    (∀ asps, g.airspacesGroupBin = some asps → trackCount g < asps.length →
      createRuntimeTracks dist groups = none) ∧
    (∀ gs, g.groundAltitudeGroupBin = some gs → trackCount g < gs.length →
      (∀ ga ∈ gs, ga.altitudes ≠ none) →
      createRuntimeTracks dist groups = none) := by
  constructor
  · intro asps ha hlt
    exact createRuntimeTracks_none dist groups g hmem
      (processGroup_none_air dist g asps ha hlt)
  · intro gs hg hlt hall
    exact createRuntimeTracks_none dist groups g hmem
      (processGroup_none_gnd dist g gs hg hlt hall)

/-- C10 witness: a single group with no trajectory container but one airspaces
overlay entry makes the whole call fail. -/
theorem claim_C10_witness :
    gExBad ∈ [gExBad] ∧ gExBad.airspacesGroupBin = some [⟨[], []⟩] ∧
    trackCount gExBad < 1 ∧
    createRuntimeTracks (fun _ _ => 100) [gExBad] = none := by
  have h1 : gExBad ∈ [gExBad] := List.mem_singleton.mpr rfl
  have h2 : gExBad.airspacesGroupBin = some [⟨[], []⟩] := rfl
  have h3 : trackCount gExBad < 1 := by simp [trackCount, gExBad]
  exact ⟨h1, h2, h3,
    (claim_C10_overlay_failure (fun _ _ => 100) [gExBad] gExBad h1).1 [⟨[], []⟩] h2 h3⟩

end RT
